import Mathlib

/-!
# Verification of the `uo` pipeline library (`src/uo/__init__.py`)

A shallow embedding of the single source file of the repository: the
`ComputationPipeline` class (construction and invocation), the free
functions `get_step_func_name_obj_and_call_method`, `validate_pipeline_steps`
and `add_step`, together with theorems settling the specification's claims.

Modelling choices, all driven by the Python source:

* Python values that can appear inside a step tuple are modelled by `PyVal α`,
  where `α` is the type of the values flowing through a pipeline: strings,
  integers, objects (anything carrying attributes, which covers plain
  callables via their `__call__` attribute), the `{'args': …, 'keywords': …}`
  dictionary of the pre-binding call form, and nested tuples.
* A Python callable stored in the pipeline's call table is `Fn α`:
  it receives positional arguments and keyword arguments and yields
  `some` result, or `none` when the call itself raises (e.g. an arity
  mismatch).  The pipeline layer never inspects the raised exception of a
  step, so `none` is enough.
* Exceptions of the pipeline layer itself are explicit: `PyErr`.
* `getattr(obj, name)` with a non-string `name` raises
  `TypeError: attribute name must be string` in Python before any lookup
  happens; the embedding reproduces this, which is what makes the
  pre-binding branch of the source unreachable.
* Python `dict` assignment and lookup are modelled by an association list
  with in-place overwrite (`dictInsert`) and first-match lookup (`dictGet`).
-/

namespace UO

variable {α : Type}

/-- The Python exceptions the pipeline layer can raise. -/
inductive PyErr where
  | valueError : String → PyErr
  | typeError : String → PyErr
  | attributeError : String → PyErr
  | keyError : String → PyErr
  | assertionError : String → PyErr
  | indexError : PyErr
deriving DecidableEq

/-- A Python callable as the pipeline stores and invokes it: positional
arguments, keyword arguments, `some` result or `none` when the call raises. -/
abbrev Fn (α : Type) := List α → List (String × α) → Option α

/-- A Python object: a bag of attributes.  Only callable-valued attributes
matter to the pipeline (`__call__`, named methods), so only those are kept. -/
structure PyObj (α : Type) where
  attrs : String → Option (Fn α)

/-- A Python value as it can appear inside a step tuple. -/
inductive PyVal (α : Type) where
  | str : String → PyVal α
  | int : Int → PyVal α
  | obj : PyObj α → PyVal α
  /-- the `{'args': [...], 'keywords': {...}}` dictionary of the pre-binding
  call form -/
  | pdict : List α → List (String × α) → PyVal α
  | tuple : List (PyVal α) → PyVal α

/-- Python's `callable`: an object whose type has `__call__`.  Strings,
integers, dictionaries and tuples are not callable. -/
def callable : PyVal α → Bool
  | .obj o => (o.attrs "__call__").isSome
  | _ => false

/-- Python's `isinstance(v, str)`. -/
def isStr : PyVal α → Bool
  | .str _ => true
  | _ => false

/-- `getattr(v, name)` for a string attribute name.  Non-object values expose
none of the callable attributes this model tracks. -/
def pyGetattr : PyVal α → String → Option (Fn α)
  | .obj o, m => o.attrs m
  | _, _ => none

/-- Python `dict` lookup on an association list (keys are unique by
construction, see `dictInsert`). -/
def dictGet (d : List (String × β)) (k : String) : Option β :=
  match d with
  | [] => none
  | (k', v) :: rest => if k' = k then some v else dictGet rest k

/-- Python `dict` assignment `d[k] = v`: overwrite in place, else append. -/
def dictInsert (d : List (String × β)) (k : String) (v : β) : List (String × β) :=
  match d with
  | [] => [(k, v)]
  | (k', v') :: rest => if k' = k then (k, v) :: rest else (k', v') :: dictInsert rest k v

/-- The state of a `ComputationPipeline` instance:
`step_names` and `call_method_for_func_name` as in the source, and `attrs`
for the dynamic attributes `setattr(self, func_name, obj)` creates. -/
structure ComputationPipeline (α : Type) where
  step_names : List String
  call_method_for_func_name : List (String × Fn α)
  attrs : List (String × PyVal α)

/-- `get_step_func_name_obj_and_call_method(step)`:
length 2 yields `(step[0], step[1], '__call__')`, length 3 yields the
elements, otherwise `(step[0], step[1], step[2:])` (raising `IndexError`
for tuples shorter than 2, as `step[0]`/`step[1]` would).  A non-tuple
step has none of the sequence behaviour the function relies on. -/
def get_step_func_name_obj_and_call_method (step : PyVal α) :
    Except PyErr (PyVal α × PyVal α × PyVal α) :=
  match step with
  | .tuple [] => .error .indexError
  | .tuple [_] => .error .indexError
  | .tuple [a, b] => .ok (a, b, .str "__call__")
  | .tuple [a, b, c] => .ok (a, b, c)
  | .tuple (a :: b :: rest) => .ok (a, b, .tuple rest)
  | _ => .error (.typeError "object is not a tuple")

/-- The per-step binding block that `ComputationPipeline.__init__` runs for
every resolved step and that `add_step` duplicates verbatim:

    setattr(self, func_name, obj)
    self.step_names.append(func_name)
    func = getattr(obj, call_method)
    if isinstance(call_method, str):
        self.call_method_for_func_name[func_name] = func
    else: ...  # pre-binding branch

The result is the mutated pipeline together with the exception raised, if
any; mutations made before the raise are kept, as in Python.  Note that
`getattr(obj, call_method)` runs before the `isinstance(call_method, str)`
dispatch: for a non-string `call_method` it raises
`TypeError: attribute name must be string`, so the source's pre-binding
`else` branch (the one building `functools.partial(func, *args, **keywords)`)
is unreachable and contributes no reachable semantics here. -/
def bindStep (p : ComputationPipeline α) (func_name obj call_method : PyVal α) :
    ComputationPipeline α × Option PyErr :=
  match func_name with
  | .str name =>
    let p1 : ComputationPipeline α :=
      { p with
        attrs := dictInsert p.attrs name obj,
        step_names := p.step_names ++ [name] }
    match call_method with
    | .str m =>
      match pyGetattr obj m with
      | some func =>
        ({ p1 with
           call_method_for_func_name :=
             dictInsert p1.call_method_for_func_name name func }, none)
      | none => (p1, some (.attributeError m))
    | _ => (p1, some (.typeError "attribute name must be string"))
  | _ => (p, some (.typeError "attribute name must be string"))

/-- The `for func_name, obj, call_method in map(...)` loop of `__init__`,
starting from the pipeline state accumulated so far.  A raise aborts the
construction (no object is produced). -/
def initLoop (p : ComputationPipeline α) : List (PyVal α) → Except PyErr (ComputationPipeline α)
  | [] => .ok p
  | s :: rest =>
    match get_step_func_name_obj_and_call_method s with
    | .error e => .error e
    | .ok (n, o, cm) =>
      match bindStep p n o cm with
      | (p', none) => initLoop p' rest
      | (_, some e) => .error e

/-- `ComputationPipeline.__init__(self, steps)`: assert the step list is
non-empty, then resolve and bind each step in order. -/
def ComputationPipeline.construct (steps : List (PyVal α)) :
    Except PyErr (ComputationPipeline α) :=
  if steps.length > 0 then
    initLoop { step_names := [], call_method_for_func_name := [], attrs := [] } steps
  else .error (.assertionError "You need at least one step in your pipeline")

/-- The `for func_name in self.step_names[1:]` loop of `__call__`: feed the
flowing value as the sole positional argument of each remaining step. -/
def runRest (p : ComputationPipeline α) : List String → α → Except PyErr α
  | [], x => .ok x
  | n :: ns, x =>
    match dictGet p.call_method_for_func_name n with
    | none => .error (.keyError n)
    | some f =>
      match f [x] [] with
      | none => .error (.typeError "exception raised by the step")
      | some x' => runRest p ns x'

/-- `ComputationPipeline.__call__(self, *args, **kwargs)`: the first step
receives the caller's arguments, every later step the previous step's
return value. -/
def ComputationPipeline.call (p : ComputationPipeline α)
    (args : List α) (kwargs : List (String × α)) : Except PyErr α :=
  match p.step_names with
  | [] => .error .indexError
  | n0 :: rest =>
    match dictGet p.call_method_for_func_name n0 with
    | none => .error (.keyError n0)
    | some f =>
      match f args kwargs with
      | none => .error (.typeError "exception raised by the step")
      | some x => runRest p rest x

/-- The message of the first `ValueError` of `validate_pipeline_steps`. -/
def formatMsg : String := "Step format is incorrect or callable object is not provided."

/-- The message of the second `ValueError` of `validate_pipeline_steps`. -/
def secondElemMsg : String := "The second element of each step tuple must be a callable object."

/-- The message of the third `ValueError` of `validate_pipeline_steps`. -/
def thirdElemMsg : String :=
  "The third element of the step, if provided, must be a string representing the method name."

/-- `validate_pipeline_steps(steps)`: for each step in order, check it is a
tuple of length 2 or 3, that its second element is callable, and that a
third element, when present, is a string; raise `ValueError` at the first
failure, return `True` when every step passes. -/
def validate_pipeline_steps : List (PyVal α) → Except PyErr Bool
  | [] => .ok true
  | step :: rest =>
    match step with
    | .tuple [_, b] =>
      if callable b then validate_pipeline_steps rest
      else .error (.valueError secondElemMsg)
    | .tuple [_, b, c] =>
      if callable b then
        if isStr c then validate_pipeline_steps rest
        else .error (.valueError thirdElemMsg)
      else .error (.valueError secondElemMsg)
    | _ => .error (.valueError formatMsg)

/-- `add_step(pipeline, step)`: validate the single step (a raise leaves the
pipeline untouched), then resolve and bind it exactly as `__init__` does,
mutating the pipeline in place.  The result pairs the pipeline state after
the call with the exception raised, if any. -/
def add_step (pipeline : ComputationPipeline α) (step : PyVal α) :
    ComputationPipeline α × Option PyErr :=
  match validate_pipeline_steps [step] with
  | .error e => (pipeline, some e)
  | .ok b =>
    if b then
      match get_step_func_name_obj_and_call_method step with
      | .error e => (pipeline, some e)
      | .ok (n, o, cm) => bindStep pipeline n o cm
    else (pipeline, none)

/-! ## Vocabulary for the theorems

`unaryFn`/`pyLambda` embed a Python lambda of one argument; `simpleStep`
embeds the 2-tuple step `(name, lambda)`; `invoke1` is
`Invoke(Construct(steps), x)`; `composeLeftToRight` is the spec's
left-to-right composition of a step list, written from the spec's words
for the refinement claims; `wellFormedStep`/`validationError` characterise
`validate_pipeline_steps` step by step. -/

/-- The callable of a one-argument Python lambda: it accepts exactly one
positional argument and no keywords, anything else raises. -/
def unaryFn (f : α → α) : Fn α :=
  fun args kwargs =>
    match args, kwargs with
    | [x], [] => some (f x)
    | _, _ => none

/-- A one-argument Python lambda as a value: an object whose only modelled
attribute is `__call__`. -/
def pyLambda (f : α → α) : PyVal α :=
  .obj ⟨fun m => if m = "__call__" then some (unaryFn f) else none⟩

/-- The step 2-tuple `(name, lambda x: f x)`. -/
def simpleStep (n : String) (f : α → α) : PyVal α :=
  .tuple [.str n, pyLambda f]

/-- A list of `(name, lambda)` step 2-tuples. -/
def simpleSteps (ps : List (String × (α → α))) : List (PyVal α) :=
  ps.map fun q => simpleStep q.1 q.2

/-- `Invoke(Construct(steps), x)`: construct the pipeline from `steps` and
call it on the single positional argument `x`; an exception of either phase
propagates. -/
def invoke1 (steps : List (PyVal α)) (x : α) : Except PyErr α :=
  match ComputationPipeline.construct steps with
  | .ok p => p.call [x] []
  | .error e => .error e

/-- The spec's left-to-right composition of named unary steps applied to a
value (written from the spec's words, to be compared with the pipeline). -/
def composeLeftToRight (ps : List (String × (α → α))) (x : α) : α :=
  ps.foldl (fun a q => q.2 a) x

/-- What one binding iteration of `__init__`/`add_step` does to the pipeline
state for a `(name, lambda)` step: append the name, overwrite the call-table
entry and the attribute. -/
def bindSimple (p : ComputationPipeline α) (n : String) (f : α → α) :
    ComputationPipeline α :=
  { step_names := p.step_names ++ [n],
    call_method_for_func_name := dictInsert p.call_method_for_func_name n (unaryFn f),
    attrs := dictInsert p.attrs n (pyLambda f) }

/-- The empty pipeline state `__init__` starts from. -/
def emptyPipeline : ComputationPipeline α :=
  { step_names := [], call_method_for_func_name := [], attrs := [] }

/-- A step the validator accepts: a tuple of length 2 or 3 whose second
element is callable and whose third element, when present, is a string. -/
def wellFormedStep : PyVal α → Bool
  | .tuple [_, b] => callable b
  | .tuple [_, b, c] => callable b && isStr c
  | _ => false

/-- The `ValueError` the validator raises on a given malformed step. -/
def validationError : PyVal α → PyErr
  | .tuple [_, _] => .valueError secondElemMsg
  | .tuple [_, b, _] =>
    if callable b then .valueError thirdElemMsg else .valueError secondElemMsg
  | _ => .valueError formatMsg

/-! ## Dictionary lemmas -/

@[simp]
theorem dictGet_insert_self (d : List (String × β)) (k : String) (v : β) :
    dictGet (dictInsert d k v) k = some v := by
  induction d with
  | nil => simp [dictGet, dictInsert]
  | cons hd tl ih =>
    obtain ⟨k', v'⟩ := hd
    by_cases h : k' = k
    · simp [dictGet, dictInsert, h]
    · simp [dictGet, dictInsert, h, ih]

theorem dictGet_insert_ne (d : List (String × β)) (k k' : String) (v : β)
    (h : k' ≠ k) : dictGet (dictInsert d k' v) k = dictGet d k := by
  induction d with
  | nil => simp [dictGet, dictInsert, h]
  | cons hd tl ih =>
    obtain ⟨k0, v0⟩ := hd
    by_cases h0 : k0 = k'
    · subst h0
      simp [dictGet, dictInsert, h]
    · by_cases h1 : k0 = k
      · simp [dictGet, dictInsert, h0, h1, Ne.symm h]
      · simp [dictGet, dictInsert, h0, h1, ih]

/-! ## Reduction lemmas for simple (name, lambda) steps -/

@[simp]
theorem pyGetattr_pyLambda (f : α → α) :
    pyGetattr (pyLambda f) "__call__" = some (unaryFn f) := by
  simp [pyGetattr, pyLambda]

@[simp]
theorem resolve_simpleStep (n : String) (f : α → α) :
    get_step_func_name_obj_and_call_method (simpleStep n f)
      = .ok (.str n, pyLambda f, .str "__call__") := rfl

theorem bindStep_simple (p : ComputationPipeline α) (n : String) (f : α → α) :
    bindStep p (.str n) (pyLambda f) (.str "__call__") = (bindSimple p n f, none) := by
  simp [bindStep, bindSimple]

/-- The construction loop never raises on simple steps: it folds `bindSimple`
over the list. -/
theorem initLoop_simple (ps : List (String × (α → α))) (p : ComputationPipeline α) :
    initLoop p (simpleSteps ps)
      = .ok (ps.foldl (fun acc q => bindSimple acc q.1 q.2) p) := by
  induction ps generalizing p with
  | nil => rfl
  | cons q qs ih =>
    simp [simpleSteps, initLoop, bindStep_simple] at ih ⊢
    exact ih _

theorem initLoop_append (xs ys : List (PyVal α)) (p : ComputationPipeline α) :
    initLoop p (xs ++ ys)
      = match initLoop p xs with
        | .ok p' => initLoop p' ys
        | .error e => .error e := by
  induction xs generalizing p with
  | nil => rfl
  | cons s rest ih =>
    simp only [List.cons_append, initLoop]
    split
    · rfl
    · split
      · exact ih _
      · rfl

/-! ## The pipeline state after folding simple bindings -/

theorem foldl_bindSimple_names (ps : List (String × (α → α))) (p : ComputationPipeline α) :
    (ps.foldl (fun acc q => bindSimple acc q.1 q.2) p).step_names
      = p.step_names ++ ps.map Prod.fst := by
  induction ps generalizing p with
  | nil => simp
  | cons q qs ih =>
    rw [List.foldl_cons, ih]
    simp [bindSimple]

theorem foldl_bindSimple_table_notmem (ps : List (String × (α → α)))
    (p : ComputationPipeline α) (n : String) (h : n ∉ ps.map Prod.fst) :
    dictGet (ps.foldl (fun acc q => bindSimple acc q.1 q.2) p).call_method_for_func_name n
      = dictGet p.call_method_for_func_name n := by
  induction ps generalizing p with
  | nil => rfl
  | cons q qs ih =>
    simp only [List.map_cons, List.mem_cons, not_or] at h
    simp only [List.foldl_cons]
    rw [ih _ h.2]
    exact dictGet_insert_ne _ _ _ _ fun hq => h.1 hq.symm

/-- With pairwise-distinct step names, the call table built from simple steps
holds each step's own lambda. -/
theorem foldl_bindSimple_table_mem (ps : List (String × (α → α)))
    (p : ComputationPipeline α) (hnd : (ps.map Prod.fst).Nodup)
    (r : String × (α → α)) (hr : r ∈ ps) :
    dictGet (ps.foldl (fun acc q => bindSimple acc q.1 q.2) p).call_method_for_func_name r.1
      = some (unaryFn r.2) := by
  induction ps generalizing p with
  | nil => cases hr
  | cons q qs ih =>
    simp only [List.map_cons, List.nodup_cons] at hnd
    rcases List.mem_cons.mp hr with h | h
    · subst h
      simp only [List.foldl_cons]
      rw [foldl_bindSimple_table_notmem qs _ r.1 hnd.1]
      simp [bindSimple]
    · exact ih (bindSimple p q.1 q.2) hnd.2 h

/-! ## Invocation lemmas -/

theorem runRest_simple (P : ComputationPipeline α) (qs : List (String × (α → α)))
    (x : α)
    (ht : ∀ r ∈ qs, dictGet P.call_method_for_func_name r.1 = some (unaryFn r.2)) :
    runRest P (qs.map Prod.fst) x = .ok (qs.foldl (fun a r => r.2 a) x) := by
  induction qs generalizing x with
  | nil => rfl
  | cons q qs ih =>
    have hq := ht q (List.mem_cons_self q qs)
    simp only [List.map_cons, runRest, hq, unaryFn, List.foldl_cons]
    exact ih (q.2 x) fun r hr => ht r (List.mem_cons_of_mem q hr)

theorem runRest_append_keyError (P : ComputationPipeline α) (names : List String)
    (k : String) (x : α)
    (h : ∀ nm ∈ names, ∃ f, dictGet P.call_method_for_func_name nm = some (unaryFn f))
    (hk : dictGet P.call_method_for_func_name k = none) :
    runRest P (names ++ [k]) x = .error (.keyError k) := by
  induction names generalizing x with
  | nil => simp [runRest, hk]
  | cons nm ns ih =>
    obtain ⟨f, hf⟩ := h nm (List.mem_cons_self nm ns)
    simp only [List.cons_append, runRest, hf, unaryFn]
    exact ih (f x) fun r hr => h r (List.mem_cons_of_mem nm hr)

/-- Invocation of a pipeline whose step names and call table agree with a
non-empty list of named unary functions computes their left-to-right
composition. -/
theorem call_of_table (P : ComputationPipeline α) (q : String × (α → α))
    (qs : List (String × (α → α))) (x : α)
    (hn : P.step_names = (q :: qs).map Prod.fst)
    (ht : ∀ r ∈ q :: qs, dictGet P.call_method_for_func_name r.1 = some (unaryFn r.2)) :
    P.call [x] [] = .ok (composeLeftToRight (q :: qs) x) := by
  have hq := ht q (List.mem_cons_self q qs)
  simp only [ComputationPipeline.call, hn, List.map_cons, hq, unaryFn, composeLeftToRight,
    List.foldl_cons]
  exact runRest_simple P qs (q.2 x) fun r hr => ht r (List.mem_cons_of_mem q hr)

/-! ## Validator lemmas -/

theorem validate_cons (s : PyVal α) (rest : List (PyVal α)) :
    validate_pipeline_steps (s :: rest)
      = if wellFormedStep s then validate_pipeline_steps rest
        else .error (validationError s) := by
  cases s with
  | str v => rfl
  | int v => rfl
  | obj o => rfl
  | pdict a k => rfl
  | tuple elems =>
    match elems with
    | [] => rfl
    | [a] => rfl
    | [a, b] =>
      by_cases hb : callable b
      · simp [validate_pipeline_steps, wellFormedStep, hb]
      · simp [validate_pipeline_steps, wellFormedStep, validationError, hb]
    | [a, b, c] =>
      by_cases hb : callable b
      · by_cases hc : isStr c
        · simp [validate_pipeline_steps, wellFormedStep, hb, hc]
        · simp [validate_pipeline_steps, wellFormedStep, validationError, hb, hc]
      · simp [validate_pipeline_steps, wellFormedStep, validationError, hb]
    | a :: b :: c :: d :: rest' => rfl

/-- Complete characterisation of the validator: it raises the `ValueError`
matching the first malformed step without looking further, and returns
`True` when every step is well formed. -/
theorem validate_spec (steps : List (PyVal α)) :
    validate_pipeline_steps steps
      = match steps.find? (fun s => !wellFormedStep s) with
        | some bad => .error (validationError bad)
        | none => .ok true := by
  induction steps with
  | nil => rfl
  | cons s rest ih =>
    rw [validate_cons, List.find?_cons]
    by_cases h : wellFormedStep s
    · simp [h, ih]
    · simp only [Bool.not_eq_true] at h
      simp [h]

theorem validate_ne_ok_false (steps : List (PyVal α)) :
    validate_pipeline_steps steps ≠ .ok false := by
  rw [validate_spec]
  cases steps.find? (fun s => !wellFormedStep s) <;> simp

/-! ## Construction lemmas -/

/-- Constructing from a non-empty list of `(name, lambda)` steps always
succeeds and folds `bindSimple` over the list. -/
theorem construct_simple (ps : List (String × (α → α))) (hne : ps ≠ []) :
    ComputationPipeline.construct (simpleSteps ps)
      = .ok (ps.foldl (fun acc r => bindSimple acc r.1 r.2) emptyPipeline) := by
  obtain ⟨q, qs, rfl⟩ := List.exists_cons_of_ne_nil hne
  have hlen : (simpleSteps (q :: qs)).length > 0 := by simp [simpleSteps]
  unfold ComputationPipeline.construct
  rw [if_pos hlen]
  exact initLoop_simple (q :: qs) emptyPipeline

/-- Binding a single step from a resolved triple. -/
theorem initLoop_single (p : ComputationPipeline α) (s n o cm : PyVal α)
    (p' : ComputationPipeline α)
    (hres : get_step_func_name_obj_and_call_method s = .ok (n, o, cm))
    (hb : bindStep p n o cm = (p', none)) :
    initLoop p [s] = .ok p' := by
  simp only [initLoop, hres, hb]

/-- The construction loop only looks at a step through the resolver, so steps
with equal resolver results are interchangeable. -/
theorem initLoop_congr (s1 s2 : PyVal α)
    (h : get_step_func_name_obj_and_call_method s1 = get_step_func_name_obj_and_call_method s2)
    (pre post : List (PyVal α)) (p : ComputationPipeline α) :
    initLoop p (pre ++ s1 :: post) = initLoop p (pre ++ s2 :: post) := by
  induction pre generalizing p with
  | nil => simp only [List.nil_append, initLoop, h]
  | cons s rest ih =>
    simp only [List.cons_append, initLoop]
    split
    · rfl
    · split
      · exact ih _
      · rfl

/-! ## Concrete inputs used by the witnesses and counterexamples -/

/-- The spec's concrete scenario for invocation: `[("f", λx. x+2), ("g", λx. x*10)]`. -/
def c1Steps : List (String × (Int → Int)) := [("f", fun y => y + 2), ("g", fun y => y * 10)]

/-- Two steps sharing the name `"h"`: the input refuting the unrestricted
composition claim. -/
def c1DupSteps : List (String × (Int → Int)) := [("h", fun y => y + 1), ("h", fun y => y * 2)]

/-- A target object exposing the method `method`, which takes two pre-bound
positional arguments, the flowing value and the keyword `k` (the call the
spec's pre-binding form describes). -/
def c2Target : PyObj Int :=
  ⟨fun s =>
    if s = "method" then
      some (fun args kwargs =>
        match args, kwargs with
        | [a, b, x], [("k", v)] => some (a + b + x + v)
        | _, _ => none)
    else none⟩

/-- The pre-binding step `("s", c2Target, ("method", {'args': [1, 2], 'keywords': {'k': 3}}))`. -/
def c2Step : PyVal Int :=
  .tuple [.str "s", .obj c2Target, .tuple [.str "method", .pdict [1, 2] [("k", 3)]]]

/-- The spec's `AddStep` scenario: initial steps `[("increment", λx. x+2)]`. -/
def c3S : List (PyVal Int) := [simpleStep "increment" (fun y => y + 2)]

/-- The spec's `AddStep` scenario: the added step `("multiply", λx. x*10)`. -/
def c3C : PyVal Int := simpleStep "multiply" (fun y => y * 10)

/-- The pipeline state after constructing from `c3S`. -/
def c3P0 : ComputationPipeline Int :=
  ⟨["increment"], [("increment", unaryFn (fun y => y + 2))],
   [("increment", pyLambda (fun y => y + 2))]⟩

/-- The pipeline state after adding `c3C` to `c3P0`. -/
def c3P1 : ComputationPipeline Int :=
  ⟨["increment", "multiply"],
   [("increment", unaryFn (fun y => y + 2)), ("multiply", unaryFn (fun y => y * 10))],
   [("increment", pyLambda (fun y => y + 2)), ("multiply", pyLambda (fun y => y * 10))]⟩

/-- A one-step pipeline used to exercise `add_step` aborting on validation. -/
def c7P : ComputationPipeline Int :=
  ⟨["id"], [("id", unaryFn (fun y => y))], [("id", pyLambda (fun y => y))]⟩

/-- A malformed step: a 1-tuple. -/
def c7Bad : PyVal Int := .tuple [.str "bad"]

/-- A one-step pipeline with the step `"f"`, for the `add_step` mutation claims. -/
def c9P : ComputationPipeline Int :=
  ⟨["f"], [("f", unaryFn (fun y => y + 2))], [("f", pyLambda (fun y => y + 2))]⟩

/-- A callable target with no attribute `"m"`. -/
def c9T : PyObj Int :=
  ⟨fun s => if s = "__call__" then some (unaryFn (fun y => y)) else none⟩

/-- A step that passes validation, reuses the existing name `"f"` and names
the missing method `"m"`. -/
def c9DupStep : PyVal Int := .tuple [.str "f", .obj c9T, .str "m"]

/-! ## The claims -/

/-- Claim C2: the partial-binding step form `(name, target, ('method',
{'args': [a, b], 'keywords': {'k': v}}))` does NOT produce a pipeline with a
partially-applied invocable: construction raises
`TypeError: attribute name must be string` at `func = getattr(obj,
call_method)`, which runs before the `isinstance(call_method, str)` dispatch,
so the source's pre-binding branch is dead code.  Evaluated here on the
claim's own input shape, with a target whose `method` exists. -/
theorem C2_theorem :
    ComputationPipeline.construct [c2Step]
      = .error (.typeError "attribute name must be string") := rfl

/-- Claim C4: the validator raises the `ValueError` matching the first
malformed step — not a tuple of length 2 or 3, second element not callable,
or a 3-tuple whose third element is not a string — without examining later
steps, returns `True` when every step is well formed, and never returns a
failure value. -/
theorem C4_theorem (steps : List (PyVal α)) :
    (validate_pipeline_steps steps
      = match steps.find? (fun s => !wellFormedStep s) with
        | some bad => .error (validationError bad)
        | none => .ok true)
  ∧ validate_pipeline_steps steps ≠ .ok false :=
  ⟨validate_spec steps, validate_ne_ok_false steps⟩

/-- Claim C5: constructing a pipeline from the empty step list always fails
with the `AssertionError` of the `assert len(steps) > 0` precondition; no
pipeline object is produced. -/
theorem C5_theorem (α : Type) :
    ComputationPipeline.construct ([] : List (PyVal α))
      = .error (.assertionError "You need at least one step in your pipeline") := rfl

/-- Claim C10: validating the empty step list succeeds and returns `True`,
while constructing a pipeline from the same empty list fails with the
construction-time `AssertionError`. -/
theorem C10_theorem (α : Type) :
    validate_pipeline_steps ([] : List (PyVal α)) = .ok true
  ∧ ComputationPipeline.construct ([] : List (PyVal α))
      = .error (.assertionError "You need at least one step in your pipeline") :=
  ⟨rfl, rfl⟩

/-- Claim C7: when the added step fails validation, `add_step` re-raises the
validator's exception and returns the pipeline completely unchanged: step
names, call table and attributes are those of the original pipeline. -/
theorem C7_theorem (p : ComputationPipeline α) (step : PyVal α) (e : PyErr)
    (h : validate_pipeline_steps [step] = .error e) :
    add_step p step = (p, some e) := by
  unfold add_step
  rw [h]

/-- Witness for C7: adding the 1-tuple `("bad",)` to a concrete pipeline
raises the format `ValueError` and leaves the pipeline untouched. -/
theorem C7_witness :
    add_step c7P c7Bad = (c7P, some (.valueError formatMsg)) :=
  C7_theorem c7P c7Bad (.valueError formatMsg) rfl

/-- Claim C8: a step 2-tuple `(name, target)` resolves to exactly the
3-tuple `(name, target, '__call__')`, so the two step forms give equal
construction results — hence pipelines with the same invocation behaviour —
in any position of any step list, whatever the target. -/
theorem C8_theorem (nv tv : PyVal α) (pre post : List (PyVal α)) (x : α) :
    get_step_func_name_obj_and_call_method (.tuple [nv, tv])
      = get_step_func_name_obj_and_call_method (.tuple [nv, tv, .str "__call__"])
  ∧ ComputationPipeline.construct (pre ++ .tuple [nv, tv] :: post)
      = ComputationPipeline.construct (pre ++ .tuple [nv, tv, .str "__call__"] :: post)
  ∧ invoke1 (pre ++ .tuple [nv, tv] :: post) x
      = invoke1 (pre ++ .tuple [nv, tv, .str "__call__"] :: post) x := by
  have hres : get_step_func_name_obj_and_call_method (.tuple [nv, tv] : PyVal α)
      = get_step_func_name_obj_and_call_method (.tuple [nv, tv, .str "__call__"]) := rfl
  have hcon : ComputationPipeline.construct (pre ++ .tuple [nv, tv] :: post)
      = ComputationPipeline.construct (pre ++ .tuple [nv, tv, .str "__call__"] :: post) := by
    unfold ComputationPipeline.construct
    have hlen : (pre ++ (.tuple [nv, tv] : PyVal α) :: post).length
        = (pre ++ (.tuple [nv, tv, .str "__call__"] : PyVal α) :: post).length := by simp
    rw [hlen]
    split
    · exact initLoop_congr _ _ hres pre post _
    · rfl
  refine ⟨hres, hcon, ?_⟩
  simp only [invoke1, hcon]

/-- Claim C1 (amended): for every non-empty list of named unary steps with
pairwise-distinct step names, invoking the constructed pipeline on `x`
returns the left-to-right composition of the steps applied to `x`.  (The
distinctness hypothesis is forced: with a duplicated name the later step's
entry overwrites the earlier one's in the call table while the name occurs
twice in the step order, see `C1_counterexample` and claim C6.) -/
theorem C1_theorem (ps : List (String × (α → α))) (x : α) (hne : ps ≠ [])
    (hnd : (ps.map Prod.fst).Nodup) :
    invoke1 (simpleSteps ps) x = .ok (composeLeftToRight ps x) := by
  obtain ⟨q, qs, rfl⟩ := List.exists_cons_of_ne_nil hne
  have hcon := construct_simple (q :: qs) (by simp)
  set P := (q :: qs).foldl (fun acc r => bindSimple acc r.1 r.2) emptyPipeline with hP
  have hnames : P.step_names = (q :: qs).map Prod.fst := by
    rw [hP, foldl_bindSimple_names]
    simp [emptyPipeline]
  have htab : ∀ r ∈ q :: qs, dictGet P.call_method_for_func_name r.1 = some (unaryFn r.2) :=
    fun r hr => foldl_bindSimple_table_mem (q :: qs) emptyPipeline hnd r hr
  simp only [invoke1, hcon]
  exact call_of_table P q qs x hnames htab

/-- Witness for C1: the spec's concrete scenario, derived from `C1_theorem`
at the list `[("f", λx. x+2), ("g", λx. x*10)]`: invoking on 0 gives 20 and
on 10 gives 120. -/
theorem C1_witness :
    invoke1 (simpleSteps c1Steps) 0 = Except.ok 20
  ∧ invoke1 (simpleSteps c1Steps) 10 = Except.ok 120 := by
  constructor
  · exact (C1_theorem c1Steps 0 (by simp [c1Steps]) (by decide)).trans rfl
  · exact (C1_theorem c1Steps 10 (by simp [c1Steps]) (by decide)).trans rfl

/-- Counterexample for C1 as stated: with the duplicated step name `"h"` in
`[("h", λx. x+1), ("h", λx. x*2)]`, invoking the pipeline on 0 returns 0
(the later lambda applied twice), not the left-to-right composition of the
steps, which is 2. -/
theorem C1_counterexample :
    invoke1 (simpleSteps c1DupSteps) 0 = Except.ok 0
  ∧ invoke1 (simpleSteps c1DupSteps) 0 ≠ Except.ok (composeLeftToRight c1DupSteps 0) := by
  constructor
  · rfl
  · intro h
    exact absurd (Except.ok.inj h) (by decide)

/-- Claim C6: construction performs no step-name uniqueness check — it
succeeds on every non-empty list of named unary steps — and with two steps
sharing a name the later step overwrites the earlier one's call-table entry
and pipeline attribute while the name is appended twice to the step order,
so invocation executes the later step's invocable twice. -/
theorem C6_theorem (n : String) (f g : α → α) (x : α) :
    (∀ ps : List (String × (α → α)), ps ≠ [] →
        ∃ p, ComputationPipeline.construct (simpleSteps ps) = .ok p)
  ∧ ∃ p, ComputationPipeline.construct [simpleStep n f, simpleStep n g] = .ok p
      ∧ p.step_names = [n, n]
      ∧ dictGet p.call_method_for_func_name n = some (unaryFn g)
      ∧ dictGet p.attrs n = some (pyLambda g)
      ∧ p.call [x] [] = .ok (g (g x)) := by
  constructor
  · intro ps hne
    exact ⟨_, construct_simple ps hne⟩
  · have hcon := construct_simple [(n, f), (n, g)] (by simp)
    have hP : ([(n, f), (n, g)].foldl (fun acc r => bindSimple acc r.1 r.2) emptyPipeline)
        = ⟨[n, n], [(n, unaryFn g)], [(n, pyLambda g)]⟩ := by
      simp [bindSimple, emptyPipeline, dictInsert]
    rw [hP] at hcon
    refine ⟨⟨[n, n], [(n, unaryFn g)], [(n, pyLambda g)]⟩, hcon, rfl, ?_, ?_, ?_⟩
    · simp [dictGet]
    · simp [dictGet]
    · simp [ComputationPipeline.call, runRest, dictGet, unaryFn]

/-- Witness for C6: duplicated name `"a"` with `λx. x+1` then `λx. x+3`;
construction succeeds and invoking on 1 yields `(1+3)+3 = 7`, the later
lambda applied twice. -/
theorem C6_witness :
    ∃ p, ComputationPipeline.construct
        [simpleStep "a" (fun y : Int => y + 1), simpleStep "a" (fun y => y + 3)] = .ok p
      ∧ ComputationPipeline.call p [1] [] = Except.ok 7 := by
  have h := C6_theorem "a" (fun y : Int => y + 1) (fun y => y + 3) 1
  obtain ⟨p, h1, _, _, _, h5⟩ := h.2
  exact ⟨p, h1, h5⟩

/-- Claim C3: for every pipeline successfully constructed from a step list
`S` and every step `C` that `add_step` then adds without raising, the
mutated pipeline is exactly the pipeline constructed directly from
`S ++ [C]` — so both give the same invocation result on every input. -/
theorem C3_theorem (S : List (PyVal α)) (C : PyVal α) (p p' : ComputationPipeline α)
    (h1 : ComputationPipeline.construct S = .ok p)
    (h2 : add_step p C = (p', none)) :
    ComputationPipeline.construct (S ++ [C]) = .ok p'
  ∧ ∀ x, invoke1 (S ++ [C]) x = p'.call [x] [] := by
  have hlen : S.length > 0 := by
    cases S with
    | nil => exact absurd h1 (by simp [ComputationPipeline.construct])
    | cons a l => simp
  have h1' : initLoop ⟨[], [], []⟩ S = .ok p := by
    unfold ComputationPipeline.construct at h1
    rwa [if_pos hlen] at h1
  unfold add_step at h2
  rcases hv : validate_pipeline_steps [C] with e | b
  · rw [hv] at h2
    simp at h2
  · rcases b with _ | _
    · exact absurd hv (validate_ne_ok_false [C])
    · rw [hv] at h2
      simp only [if_true] at h2
      rcases hres : get_step_func_name_obj_and_call_method C with e | ⟨n, o, cm⟩
      · rw [hres] at h2
        simp at h2
      · rw [hres] at h2
        have hcon : ComputationPipeline.construct (S ++ [C]) = .ok p' := by
          unfold ComputationPipeline.construct
          rw [if_pos (by simp), initLoop_append, h1']
          exact initLoop_single p C n o cm p' hres h2
        exact ⟨hcon, fun x => by simp only [invoke1, hcon]⟩

/-- Witness for C3: the spec's scenario, derived from `C3_theorem`:
constructing with `[("increment", λx. x+2)]`, adding
`("multiply", λx. x*10)`, then invoking on 3 gives 50. -/
theorem C3_witness : invoke1 (c3S ++ [c3C]) 3 = Except.ok 50 := by
  have h := C3_theorem c3S c3C c3P0 c3P1 rfl rfl
  exact (h.2 3).trans rfl

/-- Claim C9 (amended): adding a validated step `(n, t, m)` whose target
lacks the method `m` raises `AttributeError` only after appending `n` to the
step names and setting the attribute, while the call table is left without
an entry for `n`; provided the pipeline had no call-table entry for `n`
already and its existing entries are unary callables, every subsequent
single-argument invocation raises `KeyError(n)`.  (The provisos are forced:
with an existing step also named `n` the old table entry survives and
invocation succeeds, see `C9_counterexample`.) -/
theorem C9_theorem (p : ComputationPipeline α) (n m : String) (t : PyObj α)
    (hcall : (t.attrs "__call__").isSome = true)
    (hm : t.attrs m = none)
    (hn : dictGet p.call_method_for_func_name n = none)
    (hgood : ∀ nm ∈ p.step_names,
        ∃ f, dictGet p.call_method_for_func_name nm = some (unaryFn f)) :
    add_step p (.tuple [.str n, .obj t, .str m])
      = ({ step_names := p.step_names ++ [n],
           call_method_for_func_name := p.call_method_for_func_name,
           attrs := dictInsert p.attrs n (.obj t) }, some (.attributeError m))
  ∧ ∀ x : α,
      ComputationPipeline.call
        { step_names := p.step_names ++ [n],
          call_method_for_func_name := p.call_method_for_func_name,
          attrs := dictInsert p.attrs n (.obj t) } [x] []
        = .error (.keyError n) := by
  constructor
  · have hv : validate_pipeline_steps [(.tuple [.str n, .obj t, .str m] : PyVal α)]
        = .ok true := by
      simp [validate_pipeline_steps, callable, isStr, hcall]
    unfold add_step
    rw [hv]
    simp [bindStep, get_step_func_name_obj_and_call_method, pyGetattr, hm]
  · intro x
    cases hsn : p.step_names with
    | nil => simp [ComputationPipeline.call, hsn, hn]
    | cons nm0 rest =>
      obtain ⟨f, hf⟩ := hgood nm0 (by rw [hsn]; exact List.mem_cons_self _ _)
      have hrest : ∀ nm ∈ rest, ∃ f, dictGet p.call_method_for_func_name nm
          = some (unaryFn f) :=
        fun nm h => hgood nm (by rw [hsn]; exact List.mem_cons_of_mem _ h)
      simp only [ComputationPipeline.call, hsn, List.cons_append, hf, unaryFn]
      exact runRest_append_keyError _ rest n (f x) hrest hn

/-- Witness for C9: adding `("g", c9T, "m")` to the one-step pipeline `c9P`,
derived from `C9_theorem`: the call raises `AttributeError("m")` after the
mutation, and invoking the mutated pipeline on 5 raises `KeyError("g")`. -/
theorem C9_witness :
    (add_step c9P (.tuple [.str "g", .obj c9T, .str "m"])).2 = some (.attributeError "m")
  ∧ ((add_step c9P (.tuple [.str "g", .obj c9T, .str "m"])).1).call [5] []
      = Except.error (.keyError "g") := by
  have hgood : ∀ nm ∈ c9P.step_names,
      ∃ f, dictGet c9P.call_method_for_func_name nm = some (unaryFn f) := by
    intro nm hnm
    have hnm' : nm = "f" := by simpa [c9P] using hnm
    subst hnm'
    exact ⟨fun y => y + 2, rfl⟩
  have h := C9_theorem c9P "g" "m" c9T rfl rfl rfl hgood
  exact ⟨by rw [h.1], by rw [h.1]; exact h.2 5⟩

/-- Counterexample for C9 as stated: the added step reuses the existing step
name `"f"`, passes validation and its target lacks `"m"`, so `add_step`
raises `AttributeError` after mutating — but the old call-table entry for
`"f"` survives, and invocation on 0 returns 4 (the old step applied twice)
rather than raising a `KeyError`. -/
theorem C9_counterexample :
    validate_pipeline_steps [c9DupStep] = .ok true
  ∧ (add_step c9P c9DupStep).2 = some (.attributeError "m")
  ∧ ((add_step c9P c9DupStep).1).call [0] [] = Except.ok 4
  ∧ ¬ ∃ e : PyErr, ((add_step c9P c9DupStep).1).call [0] [] = Except.error e := by
  refine ⟨rfl, rfl, rfl, ?_⟩
  rintro ⟨e, he⟩
  have h4 : ((add_step c9P c9DupStep).1).call [0] [] = Except.ok 4 := rfl
  rw [h4] at he
  exact Except.noConfusion he
